import Mathlib

/-
Verification of the octopus data-mapping core against its specification.

The Go source is shallowly embedded: interface-typed runtime values become
the inductive `GoValue`; the ordered record container (base/record_data.go)
becomes `RecordData` whose Go map is modelled as an association list with
unique keys (Go maps cannot hold duplicate keys, and every operation below
preserves uniqueness); fallible operations return `Option`/`Except`; Go
panics are explicit constructors of result types.
-/

namespace Octopus

/-- Runtime values stored in records and compared by conditions.  `nilV` is
the nil interface value produced by reading a missing Go map key. -/
inductive GoValue where
  | nilV
  | intV (n : Int)
  | boolV (b : Bool)
  | strV (s : String)
  | objectIdV (hex : String)
deriving DecidableEq, Repr

/-- funcs.go isZero: whether a value equals the zero value of its kind.
Go's implementation would dereference a nil type for an untyped nil
interface; that case never arises for struct field values and is modelled
as `false`. -/
def isZero : GoValue → Bool
  | .nilV => false
  | .intV n => n == 0
  | .boolV b => b == false
  | .strV s => s == ""
  | .objectIdV hex => hex == ""

/-- funcs.go isObjectID: whether the dynamic type is bson.ObjectId. -/
def isObjectID : GoValue → Bool
  | .objectIdV _ => true
  | _ => false

/-- base/record_data.go RecordData: a record is a map from column name to
value (`data`, modelled as a unique-key association list) plus the ordered
list of keys (`keys`). -/
structure RecordData where
  data : List (String × GoValue)
  keys : List String
deriving DecidableEq, Repr

namespace RecordData

/-- base/record_data.go Get: read the map; a missing key yields the nil
interface, modelled as `none`. -/
def get (d : RecordData) (k : String) : Option GoValue :=
  (d.data.find? (fun p => p.1 == k)).map (·.2)

/-- base/record_data.go ZeroRecordData / Zero: the fresh container has an
empty map and an empty key list. -/
def zeroRecordData : RecordData := ⟨[], []⟩

/-- base/record_data.go Set: append the key to `keys` when it is new, then
write the map entry.  (Go re-zeroes first when the map or key slice is nil;
containers reachable from ZeroRecordData always have both non-nil, so that
guard never fires in the sequences considered here.) -/
def set (d : RecordData) (k : String) (v : GoValue) : RecordData :=
  let keys := if (d.get k).isSome then d.keys else d.keys ++ [k]
  let data :=
    if (d.get k).isSome then d.data.map (fun p => if p.1 == k then (k, v) else p)
    else d.data ++ [(k, v)]
  ⟨data, keys⟩

/-- base/record_data.go Length: the size of the map. -/
def length (d : RecordData) : Nat := d.data.length

/-- base/record_data.go GetColumns. -/
def getColumns (d : RecordData) : List String := d.keys

/-- base/record_data.go RenameKey: refuse when the new name already exists;
otherwise append the new key, copy the (possibly nil) value of the current
key to it, delete the current key from the map and drop its first
occurrence from the key list. -/
def renameKey (d : RecordData) (cur new : String) : Except String RecordData :=
  if (d.get new).isSome then
    .error ("cannot rename key " ++ cur ++ " to " ++ new ++ ": new key name already exists")
  else
    let keys1 := d.keys ++ [new]
    let v := (d.get cur).getD .nilV
    let data1 := d.data ++ [(new, v)]
    let data2 := data1.filter (fun p => !(p.1 == cur))
    let keys2 := keys1.erase cur
    .ok ⟨data2, keys2⟩

/-- Well-formedness of a container: no duplicate ordered keys, no duplicate
map keys, and the ordered keys mirror exactly the key set of the map. -/
def WF (d : RecordData) : Prop :=
  d.keys.Nodup ∧ (d.data.map Prod.fst).Nodup ∧ ∀ k, k ∈ d.keys ↔ (d.get k).isSome

theorem get_isSome_iff (d : RecordData) (k : String) :
    (d.get k).isSome ↔ k ∈ d.data.map Prod.fst := by
  simp only [get]
  have hmap : (Option.map (·.2) (d.data.find? fun p => p.1 == k)).isSome
      = (d.data.find? fun p => p.1 == k).isSome := by
    cases d.data.find? (fun p => p.1 == k) <;> rfl
  rw [hmap, List.find?_isSome]
  simp

theorem wf_zero : WF zeroRecordData := by
  refine ⟨List.nodup_nil, List.nodup_nil, ?_⟩
  intro k
  simp [zeroRecordData, get]

theorem set_data_mapFst (d : RecordData) (k : String) (v : GoValue) :
    (d.set k v).data.map Prod.fst =
      if (d.get k).isSome then d.data.map Prod.fst else d.data.map Prod.fst ++ [k] := by
  by_cases h : (d.get k).isSome
  · simp only [set, h, if_true, List.map_map]
    apply List.map_congr_left
    intro p _
    by_cases hp : p.1 = k
    · simp [hp]
    · simp [hp]
  · simp [set, h]

theorem set_keys (d : RecordData) (k : String) (v : GoValue) :
    (d.set k v).keys = if (d.get k).isSome then d.keys else d.keys ++ [k] := by
  by_cases h : (d.get k).isSome <;> simp [set, h]

theorem wf_set (d : RecordData) (k : String) (v : GoValue) (hd : WF d) : WF (d.set k v) := by
  obtain ⟨hk, hm, hmir⟩ := hd
  by_cases h : (d.get k).isSome
  · refine ⟨by rw [set_keys, if_pos h]; exact hk, ?_, ?_⟩
    · rw [set_data_mapFst, if_pos h]; exact hm
    · intro x
      rw [set_keys, if_pos h, get_isSome_iff, set_data_mapFst, if_pos h,
        ← get_isSome_iff]
      exact hmir x
  · have hknotin : k ∉ d.keys := fun hc => h ((hmir k).mp hc)
    have hknotm : k ∉ d.data.map Prod.fst := fun hc => h ((get_isSome_iff d k).mpr hc)
    refine ⟨?_, ?_, ?_⟩
    · rw [set_keys, if_neg h]
      exact hk.append (List.nodup_singleton k) (by simpa [List.disjoint_singleton] using hknotin)
    · rw [set_data_mapFst, if_neg h]
      exact hm.append (List.nodup_singleton k) (by simpa [List.disjoint_singleton] using hknotm)
    · intro x
      rw [set_keys, if_neg h, get_isSome_iff, set_data_mapFst, if_neg h]
      constructor
      · intro hx
        rcases List.mem_append.mp hx with hx | hx
        · exact List.mem_append.mpr (.inl ((get_isSome_iff d x).mp ((hmir x).mp hx)))
        · exact List.mem_append.mpr (.inr hx)
      · intro hx
        rcases List.mem_append.mp hx with hx | hx
        · exact List.mem_append.mpr (.inl ((hmir x).mpr ((get_isSome_iff d x).mpr hx)))
        · exact List.mem_append.mpr (.inr hx)

theorem mapFst_filter_key (l : List (String × GoValue)) (cur : String) :
    (l.filter (fun p => !(p.1 == cur))).map Prod.fst
      = (l.map Prod.fst).filter (fun x => !(x == cur)) := by
  induction l with
  | nil => rfl
  | cons p t ih => by_cases hp : p.1 == cur <;> simp [List.filter_cons, hp, ih]

theorem wf_renameKey (d : RecordData) (cur new : String) (d' : RecordData) (hd : WF d)
    (h : d.renameKey cur new = .ok d') : WF d' := by
  obtain ⟨hk, hm, hmir⟩ := hd
  by_cases hnew : (d.get new).isSome
  · unfold renameKey at h
    rw [if_pos hnew] at h
    cases h
  · unfold renameKey at h
    rw [if_neg hnew] at h
    injection h with h
    subst h
    have hnewk : new ∉ d.keys := fun hc => hnew ((hmir new).mp hc)
    have hnewm : new ∉ d.data.map Prod.fst := fun hc => hnew ((get_isSome_iff d new).mpr hc)
    have hnodupk : (d.keys ++ [new]).Nodup :=
      hk.append (List.nodup_singleton new) (by simpa [List.disjoint_singleton] using hnewk)
    have hnodupm : ((d.data.map Prod.fst) ++ [new]).Nodup :=
      hm.append (List.nodup_singleton new) (by simpa [List.disjoint_singleton] using hnewm)
    refine ⟨hnodupk.erase cur, ?_, ?_⟩
    · rw [show ((d.data ++ [(new, (d.get cur).getD .nilV)]).filter
          (fun p => !(p.1 == cur))).map Prod.fst
        = ((d.data ++ [(new, (d.get cur).getD .nilV)]).map Prod.fst).filter
          (fun x => !(x == cur)) from mapFst_filter_key _ cur]
      exact (by simpa using hnodupm : ((d.data ++ [(new, (d.get cur).getD .nilV)]).map
        Prod.fst).Nodup).filter _
    · intro x
      rw [hnodupk.mem_erase_iff, get_isSome_iff, mapFst_filter_key, List.mem_filter,
        List.map_append]
      have hmem : x ∈ d.keys ++ [new] ↔ x ∈ d.data.map Prod.fst ++ [new] := by
        rw [List.mem_append, List.mem_append]
        exact or_congr ((hmir x).trans (get_isSome_iff d x)) Iff.rfl
      constructor
      · rintro ⟨hne, hx⟩
        exact ⟨by simpa using hmem.mp hx, by simpa using hne⟩
      · rintro ⟨hx, hbe⟩
        exact ⟨by simpa using hbe, hmem.mpr (by simpa using hx)⟩

end RecordData

/-- One mutation of a record container: Set, Zero or RenameKey
(base/record_data.go). -/
inductive RDOp where
  | setOp (k : String) (v : GoValue)
  | zeroOp
  | renameOp (cur new : String)

/-- Apply one operation to a container.  A failed RenameKey returns its
error before mutating anything, so the state is unchanged. -/
def applyOp (d : RecordData) : RDOp → RecordData
  | .setOp k v => d.set k v
  | .zeroOp => RecordData.zeroRecordData
  | .renameOp cur new =>
    match d.renameKey cur new with
    | .ok d' => d'
    | .error _ => d

/-- Run a sequence of operations starting from the fresh container. -/
def applyOps (ops : List RDOp) : RecordData :=
  ops.foldl applyOp RecordData.zeroRecordData

theorem wf_applyOp (d : RecordData) (op : RDOp) (hd : RecordData.WF d) :
    RecordData.WF (applyOp d op) := by
  cases op with
  | setOp k v => exact RecordData.wf_set d k v hd
  | zeroOp => exact RecordData.wf_zero
  | renameOp cur new =>
    cases h : d.renameKey cur new with
    | ok d' => simpa [applyOp, h] using RecordData.wf_renameKey d cur new d' hd h
    | error e => simpa [applyOp, h] using hd

theorem wf_foldl (ops : List RDOp) (d : RecordData) (hd : RecordData.WF d) :
    RecordData.WF (ops.foldl applyOp d) := by
  induction ops generalizing d with
  | nil => exact hd
  | cons op t ih => exact ih _ (wf_applyOp d op hd)

theorem wf_applyOps (ops : List RDOp) : RecordData.WF (applyOps ops) :=
  wf_foldl ops _ RecordData.wf_zero

/-- C9: starting from the fresh/zeroed container, any sequence of Set, Zero
and RenameKey operations preserves the container invariant: the ordered key
list has no duplicates and mirrors exactly the key set of the value map;
a Set call preserves insertion order (an existing key keeps its position,
a new key is appended); and the fresh container has empty keys and an
empty map. -/
theorem claim_C9_recordData_invariant :
    (∀ ops : List RDOp,
      (applyOps ops).keys.Nodup ∧
        ∀ k, k ∈ (applyOps ops).keys ↔ ((applyOps ops).get k).isSome)
    ∧ (∀ (ops : List RDOp) (k : String) (v : GoValue),
        ((applyOps ops).set k v).keys =
          if k ∈ (applyOps ops).keys then (applyOps ops).keys
          else (applyOps ops).keys ++ [k])
    ∧ RecordData.zeroRecordData.keys = [] ∧ RecordData.zeroRecordData.data = [] := by
  refine ⟨fun ops => ⟨(wf_applyOps ops).1, (wf_applyOps ops).2.2⟩, ?_, rfl, rfl⟩
  intro ops k v
  rw [RecordData.set_keys]
  by_cases hk : k ∈ (applyOps ops).keys
  · rw [if_pos (((wf_applyOps ops).2.2 k).mp hk), if_pos hk]
  · rw [if_neg (fun hs => hk (((wf_applyOps ops).2.2 k).mpr hs)), if_neg hk]

/-! String helpers: Go strings.Join and strings.TrimRight(s, " "). -/

/-- Go strings.Join: concatenate with a separator between elements. -/
def strJoin (sep : String) : List String → String
  | [] => ""
  | [x] => x
  | x :: y :: t => x ++ sep ++ strJoin sep (y :: t)

/-- Drop every trailing space of a character list. -/
def trimRChars (l : List Char) : List Char :=
  (l.reverse.dropWhile (fun c => c = ' ')).reverse

/-- Go strings.TrimRight(s, " "): remove all trailing spaces. -/
def trimRightSpace (s : String) : String := String.mk (trimRChars s.data)

theorem data_append (s t : String) : (s ++ t).data = s.data ++ t.data := by
  cases s; cases t; rfl

theorem dropWhile_dropWhile_append (p : Char → Bool) (a b : List Char) :
    (List.dropWhile p a ++ b).dropWhile p = (a ++ b).dropWhile p := by
  induction a with
  | nil => rfl
  | cons c t ih =>
    by_cases hc : p c
    · simpa [List.dropWhile_cons, hc] using ih
    · simp [List.dropWhile_cons, hc]

theorem trimRChars_append_trimRChars (x y : List Char) :
    trimRChars (x ++ trimRChars y) = trimRChars (x ++ y) := by
  unfold trimRChars
  rw [List.reverse_append, List.reverse_reverse, List.reverse_append]
  rw [dropWhile_dropWhile_append]

/-- Trimming absorbs an inner right-trim: code that right-trims a suffix and
then right-trims the concatenation produces the same text as right-trimming
the raw concatenation. -/
theorem trimRightSpace_append_trimRightSpace (x y : String) :
    trimRightSpace (x ++ trimRightSpace y) = trimRightSpace (x ++ y) := by
  unfold trimRightSpace
  rw [data_append, data_append]
  exact congrArg String.mk (trimRChars_append_trimRChars x.data y.data)

/-- A trailing space disappears under right-trimming. -/
theorem trimRightSpace_append_space (x : String) :
    trimRightSpace (x ++ " ") = trimRightSpace x := by
  unfold trimRightSpace
  rw [data_append]
  unfold trimRChars
  rw [List.reverse_append]
  rfl

theorem length_append (s t : String) : (s ++ t).length = s.length + t.length := by
  show (s ++ t).data.length = s.data.length + t.data.length
  rw [data_append, List.length_append]

/-! The condition model (term package) and the SQL query builder
(clients/sql_query.go). -/

/-- One backend-neutral comparison predicate (the term package): Equal,
NotEqual, GreaterThan, GreaterThanEqual, LessThan, LessThanEqual, In,
IsNull, NotNull.  `V` is the type of comparison values. -/
inductive Condition (V : Type) where
  | equal (field : String) (value : V)
  | notEqual (field : String) (value : V)
  | greaterThan (field : String) (value : V)
  | greaterThanEqual (field : String) (value : V)
  | lessThan (field : String) (value : V)
  | lessThanEqual (field : String) (value : V)
  | inList (field : String) (values : List V)
  | isNull (field : String)
  | notNull (field : String)

/-- base.Sort: a column plus direction. -/
structure SortSpec where
  column : String
  descending : Bool
deriving DecidableEq

/-- clients/sql_query.go sqlQuery: table name, conditions, the dialect
quoting function, sorts, limit and offset.  The driver session is passed
separately to the operations that execute statements. -/
structure SqlQuery (V : Type) where
  table : String
  conditions : List (Condition V)
  enquoter : V → String
  sorts : List SortSpec
  limit : Int
  offset : Int

/-- clients/sql_query.go parseWhere: one clause is appended per condition
(switching on the condition's type), and the clauses are joined with
" AND ". -/
def parseWhere {V : Type} (conditions : List (Condition V)) (enquoter : V → String) : String :=
  let clauses := conditions.foldl (fun clauses condition =>
    match condition with
    | .equal f v => clauses ++ [f ++ " = " ++ enquoter v]
    | .notEqual f v => clauses ++ [f ++ " != " ++ enquoter v]
    | .greaterThan f v => clauses ++ [f ++ " > " ++ enquoter v]
    | .greaterThanEqual f v => clauses ++ [f ++ " >= " ++ enquoter v]
    | .lessThan f v => clauses ++ [f ++ " < " ++ enquoter v]
    | .lessThanEqual f v => clauses ++ [f ++ " <= " ++ enquoter v]
    | .inList f vs =>
      let valueStrings := vs.foldl (fun acc v => acc ++ [enquoter v]) []
      clauses ++ [f ++ " IN (" ++ strJoin ", " valueStrings ++ ")"]
    | .isNull f => clauses ++ [f ++ " IS NULL"]
    | .notNull f => clauses ++ [f ++ " IS NOT NULL"]) []
  strJoin " AND " clauses

/-- The operator-to-symbol table exactly as the specification states it
(spec section 4.2): EQ `=`, NE `!=`, GT `>`, GTE `>=`, LT `<`, LTE `<=`,
IN `field IN (v1, v2, ...)`, IS_NULL `field IS NULL`, NOT_NULL
`field IS NOT NULL`, every comparison value rendered through the dialect
quoting function. -/
def operatorClause {V : Type} (enquoter : V → String) : Condition V → String
  | .equal f v => f ++ " = " ++ enquoter v
  | .notEqual f v => f ++ " != " ++ enquoter v
  | .greaterThan f v => f ++ " > " ++ enquoter v
  | .greaterThanEqual f v => f ++ " >= " ++ enquoter v
  | .lessThan f v => f ++ " < " ++ enquoter v
  | .lessThanEqual f v => f ++ " <= " ++ enquoter v
  | .inList f vs => f ++ " IN (" ++ strJoin ", " (vs.map enquoter) ++ ")"
  | .isNull f => f ++ " IS NULL"
  | .notNull f => f ++ " IS NOT NULL"

theorem foldl_append_map {α β : Type} (f : α → β) (l : List α) (acc : List β) :
    l.foldl (fun a x => a ++ [f x]) acc = acc ++ l.map f := by
  induction l generalizing acc with
  | nil => simp
  | cons x t ih => simp [ih]

theorem parseWhere_eq {V : Type} (conditions : List (Condition V)) (enquoter : V → String) :
    parseWhere conditions enquoter
      = strJoin " AND " (conditions.map (operatorClause enquoter)) := by
  unfold parseWhere
  have hstep : (fun (clauses : List String) (condition : Condition V) =>
      match condition with
      | .equal f v => clauses ++ [f ++ " = " ++ enquoter v]
      | .notEqual f v => clauses ++ [f ++ " != " ++ enquoter v]
      | .greaterThan f v => clauses ++ [f ++ " > " ++ enquoter v]
      | .greaterThanEqual f v => clauses ++ [f ++ " >= " ++ enquoter v]
      | .lessThan f v => clauses ++ [f ++ " < " ++ enquoter v]
      | .lessThanEqual f v => clauses ++ [f ++ " <= " ++ enquoter v]
      | .inList f vs =>
        let valueStrings := vs.foldl (fun acc v => acc ++ [enquoter v]) []
        clauses ++ [f ++ " IN (" ++ strJoin ", " valueStrings ++ ")"]
      | .isNull f => clauses ++ [f ++ " IS NULL"]
      | .notNull f => clauses ++ [f ++ " IS NOT NULL"])
      = fun clauses condition => clauses ++ [operatorClause enquoter condition] := by
    funext clauses condition
    cases condition <;> simp [operatorClause, foldl_append_map]
  rw [hstep, foldl_append_map]
  simp

/-- C1: for every condition list built from the nine supported operators,
parseWhere renders exactly one clause per condition, joined with " AND " in
input order, each clause following the operator-to-symbol table, and every
comparison value passing through the dialect quoting function. -/
theorem claim_C1_parseWhere_operator_table {V : Type}
    (conditions : List (Condition V)) (enquoter : V → String) :
    parseWhere conditions enquoter
      = strJoin " AND " (conditions.map (operatorClause enquoter)) :=
  parseWhere_eq conditions enquoter

theorem append_right_empty (s : String) : s ++ "" = s := by
  cases s with
  | mk l => exact congrArg String.mk (List.append_nil l)

theorem append_left_empty (s : String) : "" ++ s = s := by
  cases s with
  | mk l => rfl

/-- clients/sql_query.go: rendering of one base.Sort entry inside
parseOptions: the column name followed by DESC or ASC. -/
def renderSort (s : SortSpec) : String :=
  s.column ++ " " ++ (if s.descending then "DESC" else "ASC")

/-- clients/sql_query.go parseOptions: append "LIMIT n " when the limit is
positive, then "OFFSET n " when the offset is positive, then "ORDER BY "
plus the comma-joined sort entries when any sorts exist; finally right-trim
spaces. -/
def parseOptions (limit offset : Int) (sorts : List SortSpec) : String :=
  let query := if limit > 0 then "LIMIT " ++ toString limit ++ " " else ""
  let query := query ++ (if offset > 0 then "OFFSET " ++ toString offset ++ " " else "")
  let sortStrs := sorts.foldl (fun acc s => acc ++ [renderSort s]) []
  let query := query ++
    (if sortStrs.length > 0 then "ORDER BY " ++ strJoin ", " sortStrs else "")
  trimRightSpace query

/-- The option clause before its final right-trim. -/
def rawOptions (limit offset : Int) (sorts : List SortSpec) : String :=
  (if limit > 0 then "LIMIT " ++ toString limit ++ " " else "")
    ++ (if offset > 0 then "OFFSET " ++ toString offset ++ " " else "")
    ++ (if sorts.isEmpty then "" else "ORDER BY " ++ strJoin ", " (sorts.map renderSort))

theorem parseOptions_eq_raw (limit offset : Int) (sorts : List SortSpec) :
    parseOptions limit offset sorts = trimRightSpace (rawOptions limit offset sorts) := by
  unfold parseOptions rawOptions
  rw [foldl_append_map]
  cases sorts with
  | nil => simp
  | cons s t => simp

/-- clients/sql_query.go All: the rendered statement.  When the where
clause is empty the statement is "SELECT * FROM <table> <options>",
otherwise "SELECT * FROM <table> WHERE <where> <options>"; both are
right-trimmed. -/
def sqlAllQueryString {V : Type} (q : SqlQuery V) : String :=
  let whereClause := parseWhere q.conditions q.enquoter
  let optionClause := parseOptions q.limit q.offset q.sorts
  if whereClause = "" then
    trimRightSpace ("SELECT * FROM " ++ q.table ++ " " ++ optionClause)
  else
    trimRightSpace ("SELECT * FROM " ++ q.table ++ " WHERE " ++ whereClause ++ " " ++ optionClause)

/-- The statement as the specification describes it: "SELECT * FROM
<table>" followed, in this order, by the WHERE clause (omitted when the
condition list is empty), by " LIMIT n" (omitted when n is not positive),
by " OFFSET n" (omitted when n is not positive) and by " ORDER BY col
ASC|DESC, ..." in sort order (omitted when the sort list is empty), with
trailing whitespace trimmed. -/
def specAllRender {V : Type} (q : SqlQuery V) : String :=
  trimRightSpace ("SELECT * FROM " ++ q.table
    ++ (if q.conditions.isEmpty then "" else
        " WHERE " ++ strJoin " AND " (q.conditions.map (operatorClause q.enquoter)))
    ++ (if q.limit > 0 then " " ++ ("LIMIT " ++ toString q.limit) else "")
    ++ (if q.offset > 0 then " " ++ ("OFFSET " ++ toString q.offset) else "")
    ++ (if q.sorts.isEmpty then "" else
        " " ++ ("ORDER BY " ++ strJoin ", " (q.sorts.map renderSort))))

theorem strJoin_cons_length (sep x : String) (xs : List String) :
    x.length ≤ (strJoin sep (x :: xs)).length := by
  cases xs with
  | nil => simp [strJoin]
  | cons y t =>
    simp only [strJoin, length_append]
    omega

theorem operatorClause_length_pos {V : Type} (enq : V → String) (c : Condition V) :
    0 < (operatorClause enq c).length := by
  cases c <;>
    simp [operatorClause, length_append,
      show (" = " : String).length = 3 from rfl,
      show (" != " : String).length = 4 from rfl,
      show (" > " : String).length = 3 from rfl,
      show (" >= " : String).length = 4 from rfl,
      show (" < " : String).length = 3 from rfl,
      show (" <= " : String).length = 4 from rfl,
      show (" IS NULL" : String).length = 8 from rfl,
      show (" IS NOT NULL" : String).length = 12 from rfl,
      show (" IN (" : String).length = 5 from rfl,
      show (")" : String).length = 1 from rfl]

theorem parseWhere_ne_empty {V : Type} (enq : V → String) (c : Condition V)
    (cs : List (Condition V)) : parseWhere (c :: cs) enq ≠ "" := by
  rw [parseWhere_eq, List.map_cons]
  intro h
  have hlen := congrArg String.length h
  have hle := strJoin_cons_length " AND " (operatorClause enq c) (cs.map (operatorClause enq))
  have hpos := operatorClause_length_pos enq c
  rw [hlen] at hle
  simp [show ("" : String).length = 0 from rfl] at hle
  omega

/-- Shared shape of the All/First render proof: right-trimming the code
text "<prefix> <raw options>" equals right-trimming the specification
segment concatenation. -/
theorem render_merge (P : String) (limit offset : Int) (sorts : List SortSpec) :
    trimRightSpace (P ++ " " ++ rawOptions limit offset sorts)
      = trimRightSpace (P
          ++ (if limit > 0 then " " ++ ("LIMIT " ++ toString limit) else "")
          ++ (if offset > 0 then " " ++ ("OFFSET " ++ toString offset) else "")
          ++ (if sorts.isEmpty then "" else
              " " ++ ("ORDER BY " ++ strJoin ", " (sorts.map renderSort)))) := by
  unfold rawOptions
  by_cases hs : sorts.isEmpty
  · conv_rhs => rw [← trimRightSpace_append_space]
    refine congrArg trimRightSpace ?_
    by_cases hl : limit > 0 <;> by_cases ho : offset > 0 <;>
      simp [hl, ho, hs, String.append_assoc, append_right_empty]
  · refine congrArg trimRightSpace ?_
    by_cases hl : limit > 0 <;> by_cases ho : offset > 0 <;>
      simp [hl, ho, hs, String.append_assoc, append_right_empty]

/-- C2: All renders exactly "SELECT * FROM <table>" followed, in this
order, by the WHERE clause (omitted when the condition list is empty),
"LIMIT n" (omitted when n is not positive), "OFFSET n" (omitted when n is
not positive) and "ORDER BY col ASC|DESC, ..." in sort-list order (omitted
when the sort list is empty), with trailing whitespace trimmed. -/
theorem claim_C2_all_render {V : Type} (q : SqlQuery V) :
    sqlAllQueryString q = specAllRender q := by
  obtain ⟨t, conds, enq, sorts, limit, offset⟩ := q
  unfold sqlAllQueryString specAllRender
  simp only [parseOptions_eq_raw]
  cases conds with
  | nil =>
    rw [show parseWhere ([] : List (Condition V)) enq = "" from rfl]
    rw [if_pos rfl, trimRightSpace_append_trimRightSpace, render_merge]
    refine congrArg trimRightSpace ?_
    simp [append_right_empty]
  | cons c cs =>
    rw [if_neg (parseWhere_ne_empty enq c cs), trimRightSpace_append_trimRightSpace,
      render_merge]
    refine congrArg trimRightSpace ?_
    simp [parseWhere_eq, String.append_assoc]

/-! Executing statements: the driver session is modelled as a function from
statement text to a result (clients/sql_query.go, the queryDB variable and
base.SQLDatabase.Exec); a row cursor is the column list plus the row values
it will yield, with an optional Scan failure. -/

/-- A result cursor (base.SQLRows): column names, the rows it yields, and
an optional error returned by Scan. -/
structure SQLRows where
  cols : List String
  rows : List (List GoValue)
  scanErr : Option String
deriving DecidableEq

/-- clients (mongo_query_test.go document) fetchSingleRecord: when the
cursor yields a row, scan it and write each column into the container,
returning the Scan error; when it yields nothing, zero the container and
fail with "no result found".  A failed Scan leaves the scanned values as
nil interfaces, which are still written into the container. -/
def fetchSingleRecord (rows : SQLRows) (d : RecordData) : RecordData × Option String :=
  match rows.rows with
  | [] => (RecordData.zeroRecordData, some "no result found")
  | r :: _ =>
    let scanned : List GoValue × Option String :=
      match rows.scanErr with
      | some e => (rows.cols.map (fun _ => GoValue.nilV), some e)
      | none => (r, none)
    ((rows.cols.zip scanned.1).foldl (fun d p => d.set p.1 p.2) d, scanned.2)

/-- clients/sql_query.go First: the statement it sends.  The limit is
forced to 1 before rendering the options; the WHERE keyword is always
present, even for an empty condition list. -/
def firstQueryString {V : Type} (q : SqlQuery V) : String :=
  trimRightSpace ("SELECT * FROM " ++ q.table ++ " WHERE "
    ++ parseWhere q.conditions q.enquoter ++ " " ++ parseOptions 1 q.offset q.sorts)

/-- clients/sql_query.go First: run the statement; on a driver error return
the zero container and the error, otherwise fetch a single record. -/
def sqlFirst {V : Type} (q : SqlQuery V) (driver : String → Except String SQLRows) :
    RecordData × Option String :=
  match driver (firstQueryString q) with
  | .error e => (RecordData.zeroRecordData, some e)
  | .ok rows => fetchSingleRecord rows RecordData.zeroRecordData

/-- The query of the C6 counterexample: no conditions, no options. -/
def c6Query : SqlQuery GoValue :=
  { table := "players", conditions := [], enquoter := fun _ => "", sorts := [],
    limit := 0, offset := 0 }

/-- C6 counterexample: with an empty condition list, First renders
"SELECT * FROM players WHERE  LIMIT 1" (the WHERE keyword survives with an
empty predicate) while All with limit 1 renders
"SELECT * FROM players LIMIT 1", so First does not execute the statement
All would render with the limit forced to 1. -/
theorem claim_C6_counterexample :
    firstQueryString c6Query ≠ sqlAllQueryString { c6Query with limit := 1 }
      ∧ firstQueryString c6Query = "SELECT * FROM players WHERE  LIMIT 1"
      ∧ sqlAllQueryString { c6Query with limit := 1 } = "SELECT * FROM players LIMIT 1" := by
  refine ⟨?_, by decide, by decide⟩
  decide

/-- C6 (amended): for a nonempty condition list First executes exactly the
statement All would render with the limit forced to 1 (with an empty
condition list the WHERE keyword is kept with an empty predicate, so the
texts differ); and when the driver yields zero rows, First fails with the
"no result found" error and returns the zero record container. -/
theorem claim_C6_amended_first {V : Type} :
    (∀ q : SqlQuery V, q.conditions ≠ [] →
      firstQueryString q = sqlAllQueryString { q with limit := 1 })
    ∧ (∀ (q : SqlQuery V) (driver : String → Except String SQLRows) (rows : SQLRows),
        driver (firstQueryString q) = .ok rows → rows.rows = [] →
        sqlFirst q driver = (RecordData.zeroRecordData, some "no result found")) := by
  constructor
  · intro q hconds
    obtain ⟨t, conds, enq, sorts, limit, offset⟩ := q
    cases conds with
    | nil => exact absurd rfl hconds
    | cons c cs =>
      unfold firstQueryString sqlAllQueryString
      rw [if_neg (parseWhere_ne_empty enq c cs)]
  · intro q driver rows hdriver hrows
    have h1 : sqlFirst q driver = fetchSingleRecord rows RecordData.zeroRecordData := by
      unfold sqlFirst
      rw [hdriver]
    rw [h1]
    unfold fetchSingleRecord
    rw [hrows]

/-- Concrete inputs of the C6 witness. -/
def c6WitnessQuery : SqlQuery GoValue :=
  { table := "t", conditions := [Condition.isNull "a"], enquoter := fun _ => "",
    sorts := [], limit := 0, offset := 0 }

def c6WitnessRows : SQLRows := { cols := ["id"], rows := [], scanErr := none }

def c6WitnessDriver : String → Except String SQLRows := fun _ => .ok c6WitnessRows

theorem claim_C6_amended_first_witness :
    c6WitnessQuery.conditions ≠ []
    ∧ firstQueryString c6WitnessQuery = sqlAllQueryString { c6WitnessQuery with limit := 1 }
    ∧ c6WitnessRows.rows = []
    ∧ sqlFirst c6WitnessQuery c6WitnessDriver
        = (RecordData.zeroRecordData, some "no result found") :=
  ⟨List.cons_ne_nil _ _,
    claim_C6_amended_first.1 c6WitnessQuery (List.cons_ne_nil _ _),
    rfl,
    claim_C6_amended_first.2 c6WitnessQuery c6WitnessDriver c6WitnessRows rfl rfl⟩

/-! clients/sql_query.go Update and Count. -/

/-- The driver result of an Exec call (sql.Result): its rows-affected
count.  The tests always supply a result value alongside any error, which
is the situation modelled here. -/
structure ExecResult where
  rowsAffected : Int
deriving DecidableEq

/-- The outcome of Update: a Go panic or a (rows-affected, error) pair. -/
inductive UpdateOutcome where
  | panicked (msg : String)
  | ok (rowsAffected : Int) (err : Option String)
deriving DecidableEq

/-- clients/sql_query.go parseChanges: one "col = <quoted value>" item per
column of the change set, joined with ", ".  Reading a missing column of a
Go map yields the nil interface. -/
def parseChanges (q : SqlQuery GoValue) (data : RecordData) : String :=
  let changeSet := data.getColumns.foldl (fun acc column =>
    acc ++ [column ++ " = " ++ q.enquoter ((data.get column).getD .nilV)]) []
  strJoin ", " changeSet

/-- clients/sql_query.go Update: the statement it sends. -/
def updateQueryString (q : SqlQuery GoValue) (data : RecordData) : String :=
  "UPDATE " ++ q.table ++ " SET " ++ parseChanges q data
    ++ " WHERE " ++ parseWhere q.conditions q.enquoter

/-- clients/sql_query.go Update: panic when the change set is empty,
otherwise execute the UPDATE statement and return the driver's
rows-affected count alongside any execution error. -/
def sqlUpdate (q : SqlQuery GoValue) (data : RecordData)
    (exec : String → ExecResult × Option String) : UpdateOutcome :=
  if data.length = 0 then .panicked "change data could not be empty"
  else
    let r := exec (updateQueryString q data)
    .ok r.1.rowsAffected r.2

/-- C7: Update with an empty change set is a panic, not a recoverable
error; with a nonempty change set it renders exactly
"UPDATE <table> SET col = <quoted value>, ... WHERE <predicate>" (values
through the dialect quoting function, predicate per the operator table)
and returns the driver's rows-affected count alongside any execution
error. -/
theorem claim_C7_update :
    (∀ (q : SqlQuery GoValue) (data : RecordData)
        (exec : String → ExecResult × Option String),
      data.length = 0 → sqlUpdate q data exec = .panicked "change data could not be empty")
    ∧ (∀ (q : SqlQuery GoValue) (data : RecordData)
        (exec : String → ExecResult × Option String) (res : ExecResult) (err : Option String),
      data.length ≠ 0 → exec (updateQueryString q data) = (res, err) →
      sqlUpdate q data exec = .ok res.rowsAffected err
        ∧ updateQueryString q data
          = "UPDATE " ++ q.table ++ " SET "
            ++ strJoin ", " (data.getColumns.map
              (fun c => c ++ " = " ++ q.enquoter ((data.get c).getD .nilV)))
            ++ " WHERE " ++ strJoin " AND " (q.conditions.map (operatorClause q.enquoter))) := by
  constructor
  · intro q data exec h
    unfold sqlUpdate
    rw [if_pos h]
  · intro q data exec res err h hexec
    constructor
    · unfold sqlUpdate
      rw [if_neg h, hexec]
    · unfold updateQueryString parseChanges
      rw [foldl_append_map, parseWhere_eq]
      simp

/-- Concrete inputs of the C7 witness. -/
def c7WitnessQuery : SqlQuery GoValue :=
  { table := "players", conditions := [Condition.equal "name" (GoValue.strV "Test")],
    enquoter := fun _ => "q", sorts := [], limit := 0, offset := 0 }

def c7WitnessData : RecordData := ⟨[("name", GoValue.strV "Updated")], ["name"]⟩

def c7WitnessExec : String → ExecResult × Option String := fun _ => (⟨7⟩, none)

theorem claim_C7_update_witness :
    RecordData.zeroRecordData.length = 0
    ∧ sqlUpdate c7WitnessQuery RecordData.zeroRecordData c7WitnessExec
        = .panicked "change data could not be empty"
    ∧ c7WitnessData.length ≠ 0
    ∧ sqlUpdate c7WitnessQuery c7WitnessData c7WitnessExec = .ok 7 none
    ∧ updateQueryString c7WitnessQuery c7WitnessData
        = "UPDATE " ++ c7WitnessQuery.table ++ " SET "
          ++ strJoin ", " (c7WitnessData.getColumns.map
            (fun c => c ++ " = " ++ c7WitnessQuery.enquoter ((c7WitnessData.get c).getD .nilV)))
          ++ " WHERE "
          ++ strJoin " AND " (c7WitnessQuery.conditions.map
            (operatorClause c7WitnessQuery.enquoter)) :=
  ⟨rfl,
    claim_C7_update.1 c7WitnessQuery RecordData.zeroRecordData c7WitnessExec rfl,
    by decide,
    (claim_C7_update.2 c7WitnessQuery c7WitnessData c7WitnessExec ⟨7⟩ none (by decide) rfl).1,
    (claim_C7_update.2 c7WitnessQuery c7WitnessData c7WitnessExec ⟨7⟩ none (by decide) rfl).2⟩

/-- The outcome of Count: a Go panic (failed interface type assertion) or
a (count, error) pair. -/
inductive CountOutcome where
  | panicked (msg : String)
  | ok (count : Int) (err : Option String)
deriving DecidableEq

/-- clients/sql_query.go Count: the statement it sends. -/
def countQueryString {V : Type} (q : SqlQuery V) : String :=
  "SELECT COUNT(*) AS count FROM " ++ q.table

/-- The container Count starts from: NewRecordData(["count"], (count: 0)). -/
def countInit : RecordData := ⟨[("count", GoValue.intV 0)], ["count"]⟩

/-- The final step of Count: data.Get("count").(int) — a Go type assertion
that panics when the stored value is not an int. -/
def countAssert (d : RecordData) (err : Option String) : CountOutcome :=
  match d.get "count" with
  | some (.intV n) => .ok n err
  | _ => .panicked "interface conversion"

/-- clients/sql_query.go Count: start from a container holding count 0,
run the COUNT statement (on a driver error, return the stored counter with
the error), decode the single "count" column and return it with any
error. -/
def sqlCount {V : Type} (q : SqlQuery V) (driver : String → Except String SQLRows) :
    CountOutcome :=
  match driver (countQueryString q) with
  | .error e => countAssert countInit (some e)
  | .ok rows =>
    let r := fetchSingleRecord rows countInit
    countAssert r.1 r.2

/-- C8: Count renders "SELECT COUNT(*) AS count FROM <table>" and decodes
the single "count" column as the result; when the counted table is empty
the driver yields one row holding count 0 and Count returns (0, nil) — the
general row (count n) case is proved; on a driver execution error it
returns the zero-valued counter alongside the error.  (A result set with
literally zero rows cannot occur for a COUNT statement; on such input the
Go code would panic in the type assertion after zeroing the container.) -/
theorem claim_C8_count {V : Type} :
    (∀ q : SqlQuery V, countQueryString q = "SELECT COUNT(*) AS count FROM " ++ q.table)
    ∧ (∀ (q : SqlQuery V) (driver : String → Except String SQLRows) (e : String),
        driver (countQueryString q) = .error e → sqlCount q driver = .ok 0 (some e))
    ∧ (∀ (q : SqlQuery V) (driver : String → Except String SQLRows) (rows : SQLRows) (n : Int),
        driver (countQueryString q) = .ok rows →
        rows.cols = ["count"] → rows.rows = [[GoValue.intV n]] → rows.scanErr = none →
        sqlCount q driver = .ok n none) := by
  refine ⟨fun _ => rfl, ?_, ?_⟩
  · intro q driver e hdriver
    have h1 : sqlCount q driver = countAssert countInit (some e) := by
      unfold sqlCount
      rw [hdriver]
    rw [h1]
    rfl
  · intro q driver rows n hdriver hcols hrows hscan
    have hfetch : fetchSingleRecord rows countInit
        = (⟨[("count", GoValue.intV n)], ["count"]⟩, none) := by
      unfold fetchSingleRecord
      rw [hrows, hcols, hscan]
      rfl
    have h1 : sqlCount q driver
        = countAssert (fetchSingleRecord rows countInit).1 (fetchSingleRecord rows countInit).2 := by
      unfold sqlCount
      rw [hdriver]
    rw [h1, hfetch]
    rfl

/-- Concrete inputs of the C8 witness. -/
def c8WitnessQuery : SqlQuery GoValue :=
  { table := "players", conditions := [], enquoter := fun _ => "", sorts := [],
    limit := 0, offset := 0 }

def c8WitnessRows : SQLRows := { cols := ["count"], rows := [[GoValue.intV 0]], scanErr := none }

def c8WitnessDriverOk : String → Except String SQLRows := fun _ => .ok c8WitnessRows

def c8WitnessDriverErr : String → Except String SQLRows := fun _ => .error "boom"

theorem claim_C8_count_witness :
    countQueryString c8WitnessQuery = "SELECT COUNT(*) AS count FROM players"
    ∧ sqlCount c8WitnessQuery c8WitnessDriverErr = .ok 0 (some "boom")
    ∧ c8WitnessRows.rows = [[GoValue.intV 0]]
    ∧ sqlCount c8WitnessQuery c8WitnessDriverOk = .ok 0 none :=
  ⟨claim_C8_count.1 c8WitnessQuery,
    claim_C8_count.2.1 c8WitnessQuery c8WitnessDriverErr "boom" rfl,
    rfl,
    claim_C8_count.2.2 c8WitnessQuery c8WitnessDriverOk c8WitnessRows 0 rfl rfl rfl rfl⟩

/-! The document-store builder (mongo.go and the mongoQuery document in
clients). -/

/-- The document-store builder (mongoQuery): the mgo query handle, the
collection handle and the condition-derived filter document (a bson.M
map, modelled as an association list).  `Q` and `C` abstract the driver
query and collection types; an unset Go interface field is `none`. -/
structure MongoQueryBuilder (Q C : Type) where
  query : Q
  collection : Option C
  queryMap : List (String × GoValue)

/-- newMongoQuery: the constructor receives the query handle, the
collection handle and the filter document, but builds the record from the
query handle alone, leaving the collection field nil and the filter
document empty.  MongoDB.Query (mongo.go) returns exactly this value. -/
def newMongoQuery {Q C : Type} (query : Q) (collection : C)
    (queryMap : List (String × GoValue)) : MongoQueryBuilder Q C :=
  { query := query, collection := none, queryMap := [] }

/-- mongoQuery.Update: copies the change set into a "$set" envelope and
invokes UpdateAll(queryMap, update) on the collection handle; modelled as
the call it makes: (collection handle, filter document, update
document). -/
def mongoUpdateCall {Q C : Type} (b : MongoQueryBuilder Q C) (data : RecordData) :
    Option C × List (String × GoValue) × List (String × List (String × GoValue)) :=
  (b.collection, b.queryMap, [("$set", data.data)])

/-- mongoQuery.Delete: invokes RemoveAll(queryMap) on the collection
handle; modelled as the call it makes. -/
def mongoDeleteCall {Q C : Type} (b : MongoQueryBuilder Q C) :
    Option C × List (String × GoValue) :=
  (b.collection, b.queryMap)

/-- C10: newMongoQuery returns a builder whose collection handle is nil
and whose stored filter document is empty, for every query handle,
collection and filter passed in; consequently Update and Delete on the
builder returned by the document-store client's Query never consult the
collection or the condition-derived filter that Query supplied — their
calls carry the nil handle and the empty filter regardless of the
constructor arguments. -/
theorem claim_C10_newMongoQuery {Q C : Type} (query : Q) (collection : C)
    (queryMap : List (String × GoValue)) (data : RecordData) :
    (newMongoQuery query collection queryMap).collection = none
    ∧ (newMongoQuery query collection queryMap).queryMap = []
    ∧ mongoUpdateCall (newMongoQuery query collection queryMap) data
        = (none, [], [("$set", data.data)])
    ∧ mongoDeleteCall (newMongoQuery query collection queryMap) = (none, []) :=
  ⟨rfl, rfl, rfl, rfl⟩

/-! The 64-bit-unsigned wire round trip (funcs.go setFieldValue,
reflect.Uint64 arm). -/

/-- Number of binary digits of n, with explicit fuel (structural, so that
concrete values evaluate inside the kernel).  Fuel 64 covers every uint64
value. -/
def bitLenAux : Nat → Nat → Nat
  | 0, _ => 0
  | fuel + 1, n => if n = 0 then 0 else bitLenAux fuel (n / 2) + 1

def bitLen (n : Nat) : Nat := bitLenAux 64 n

/-- Model of strconv.ParseFloat applied to the decimal representation of
an integer below 2^64: the nearest IEEE-754 double (53-bit significand,
ties to even), returned as an integer.  Integers of at most 53 significant
bits are exact. -/
def roundToDouble (n : Nat) : Nat :=
  let k := bitLen n
  if k ≤ 53 then n
  else
    let e := k - 53
    let q := n / 2 ^ e
    let r := n % 2 ^ e
    let half := 2 ^ (e - 1)
    if r < half then q * 2 ^ e
    else if half < r then (q + 1) * 2 ^ e
    else (if q % 2 = 0 then q else q + 1) * 2 ^ e

/-- Decimal digits of n, least significant first, with explicit fuel. -/
def digitsAux : Nat → Nat → List Nat
  | 0, _ => []
  | fuel + 1, n => if n = 0 then [] else n % 10 :: digitsAux fuel (n / 10)

/-- The decimal-string wire representation of a uint64, modelled as its
list of decimal digits (fuel 64 covers every uint64 value). -/
def encodeUint64 (n : Nat) : List Nat := digitsAux 64 n

/-- The numeric value of a decimal digit string. -/
def decimalValue (ds : List Nat) : Nat := ds.foldr (fun d acc => d + 10 * acc) 0

/-- funcs.go setFieldValue, reflect.Uint64 arm: the wire string is parsed
with strconv.ParseFloat and the float is converted to uint64.  The
conversion is exact for integral doubles below 2^64; a float value of
2^64 or more makes the Go conversion undefined, modelled as `none`. -/
def decodeUint64 (ds : List Nat) : Option Nat :=
  let f := roundToDouble (decimalValue ds)
  if f < 2 ^ 64 then some f else none

theorem decimalValue_digitsAux (fuel : Nat) : ∀ n : Nat, n < 10 ^ fuel →
    decimalValue (digitsAux fuel n) = n := by
  induction fuel with
  | zero =>
    intro n h
    simp only [pow_zero, Nat.lt_one_iff] at h
    subst h
    rfl
  | succ fuel ih =>
    intro n h
    by_cases hn : n = 0
    · subst hn
      rfl
    · have hdiv : n / 10 < 10 ^ fuel := by
        rw [Nat.div_lt_iff_lt_mul (by norm_num : 0 < 10)]
        calc n < 10 ^ (fuel + 1) := h
          _ = 10 ^ fuel * 10 := by ring
      show decimalValue (if n = 0 then [] else n % 10 :: digitsAux fuel (n / 10)) = n
      rw [if_neg hn]
      show n % 10 + 10 * decimalValue (digitsAux fuel (n / 10)) = n
      rw [ih (n / 10) hdiv, Nat.mod_add_div]

theorem bitLenAux_le (fuel : Nat) : ∀ n k : Nat, n < 2 ^ fuel → n < 2 ^ k →
    bitLenAux fuel n ≤ k := by
  induction fuel with
  | zero =>
    intro n k _ _
    exact Nat.zero_le k
  | succ fuel ih =>
    intro n k hf hk
    by_cases hn : n = 0
    · simp [bitLenAux, hn]
    · show (if n = 0 then 0 else bitLenAux fuel (n / 2) + 1) ≤ k
      rw [if_neg hn]
      have hk1 : 1 ≤ k := by
        by_contra hc
        push_neg at hc
        interval_cases k
        simp at hk
        omega
      have h2 : n / 2 < 2 ^ (k - 1) := by
        rw [Nat.div_lt_iff_lt_mul (by norm_num : 0 < 2)]
        calc n < 2 ^ k := hk
          _ = 2 ^ (k - 1) * 2 := by
            rw [← pow_succ]
            congr 1
            omega
      have h2f : n / 2 < 2 ^ fuel := by
        rw [Nat.div_lt_iff_lt_mul (by norm_num : 0 < 2)]
        calc n < 2 ^ (fuel + 1) := hf
          _ = 2 ^ fuel * 2 := by ring
      have := ih (n / 2) (k - 1) h2f h2
      omega

theorem roundToDouble_small (n : Nat) (h : n < 2 ^ 53) : roundToDouble n = n := by
  have hb : bitLen n ≤ 53 :=
    bitLenAux_le 64 n 53 (lt_trans h (by norm_num)) h
  unfold roundToDouble
  rw [if_pos hb]

/-- C4 counterexample: the value 2^53 + 1 (which fits uint64) encodes to
its decimal digits but decodes — through the floating-point parse — to
2^53, so the decode of the encode is not the original value. -/
theorem claim_C4_counterexample :
    decodeUint64 (encodeUint64 (2 ^ 53 + 1)) = some (2 ^ 53)
    ∧ (2 ^ 53 : Nat) ≠ 2 ^ 53 + 1 := by
  constructor
  · rfl
  · omega

/-- C4 (amended): the decimal round trip through the 64-bit-unsigned
decode path is the identity exactly on values representable in an IEEE-754
double; in particular every value below 2^53 round-trips (and so does the
representable big value 2^63, which overflows int64), while 2^53 + 1 does
not. -/
theorem claim_C4_amended_uint64_roundtrip :
    (∀ n : Nat, n < 2 ^ 53 → decodeUint64 (encodeUint64 n) = some n)
    ∧ decodeUint64 (encodeUint64 (2 ^ 63)) = some (2 ^ 63) := by
  constructor
  · intro n h
    unfold decodeUint64 encodeUint64
    rw [decimalValue_digitsAux 64 n (lt_trans h (by norm_num))]
    rw [roundToDouble_small n h]
    rw [if_pos (lt_trans h (by norm_num))]
  · rfl

theorem claim_C4_amended_uint64_roundtrip_witness :
    (12345 : Nat) < 2 ^ 53 ∧ decodeUint64 (encodeUint64 12345) = some 12345 :=
  ⟨by norm_num, claim_C4_amended_uint64_roundtrip.1 12345 (by norm_num)⟩

/-! Serialization of a schema instance (funcs.go generateRecordData and
shouldSkipField). -/

theorem find?_map_update_ne (l : List (String × GoValue)) (k x : String) (v : GoValue)
    (hx : x ≠ k) :
    ((l.map (fun p => if p.1 == k then (k, v) else p)).find? (fun p => p.1 == x))
      = l.find? (fun p => p.1 == x) := by
  induction l with
  | nil => rfl
  | cons p t ih =>
    simp only [List.map_cons, List.find?]
    by_cases hp : (p.1 == k)
    · have hpk : p.1 = k := by simpa using hp
      have h1 : (k == x) = false := beq_eq_false_iff_ne.mpr (Ne.symm hx)
      have h2 : (p.1 == x) = false := by rw [hpk]; exact h1
      rw [if_pos hp]
      simp only [h1, h2]
      exact ih
    · rw [if_neg hp]
      cases hpx : (p.1 == x) with
      | true => simp only [hpx]
      | false =>
        simp only [hpx]
        exact ih

theorem find?_map_update_eq (l : List (String × GoValue)) (k : String) (v : GoValue)
    (h : (l.find? (fun p => p.1 == k)).isSome) :
    ((l.map (fun p => if p.1 == k then (k, v) else p)).find? (fun p => p.1 == k))
      = some (k, v) := by
  induction l with
  | nil => exact absurd h (by simp [List.find?])
  | cons p t ih =>
    simp only [List.map_cons, List.find?]
    by_cases hp : (p.1 == k)
    · have hkk : ((k, v).1 == k) = true := by simp
      rw [if_pos hp]
      simp only [hkk]
    · have h2 : (p.1 == k) = false := by simpa using hp
      rw [if_neg hp]
      simp only [List.find?, h2] at h
      simp only [h2]
      exact ih h

theorem find?_append_of_none {α : Type} (p : α → Bool) (l₁ l₂ : List α)
    (h : l₁.find? p = none) : (l₁ ++ l₂).find? p = l₂.find? p := by
  induction l₁ with
  | nil => rfl
  | cons a t ih =>
    simp only [List.find?] at h
    simp only [List.cons_append, List.find?]
    cases ha : p a with
    | true =>
      simp only [ha] at h
      exact Option.noConfusion h
    | false =>
      simp only [ha] at h ⊢
      exact ih h

theorem find?_append_single_of_neg {α : Type} (p : α → Bool) (l : List α) (a : α)
    (ha : p a = false) : (l ++ [a]).find? p = l.find? p := by
  induction l with
  | nil =>
    simp only [List.nil_append, List.find?, ha]
  | cons b t ih =>
    simp only [List.cons_append, List.find?]
    cases hb : p b with
    | true => simp only [hb]
    | false =>
      simp only [hb]
      exact ih

theorem get_isSome_eq_find (d : RecordData) (k : String) :
    (d.get k).isSome = (d.data.find? (fun p => p.1 == k)).isSome := by
  unfold RecordData.get
  cases d.data.find? (fun p => p.1 == k) <;> rfl

theorem set_data (d : RecordData) (k : String) (v : GoValue) :
    (d.set k v).data =
      if (d.get k).isSome then d.data.map (fun p => if p.1 == k then (k, v) else p)
      else d.data ++ [(k, v)] := by
  by_cases h : (d.get k).isSome <;> simp [RecordData.set, h]

theorem get_eq_find (d : RecordData) (x : String) :
    d.get x = (d.data.find? (fun p => p.1 == x)).map (·.2) := rfl

theorem get_set (d : RecordData) (k x : String) (v : GoValue) :
    (d.set k v).get x = if x = k then some v else d.get x := by
  by_cases h : (d.get k).isSome
  · have hfind : (d.data.find? (fun p => p.1 == k)).isSome := by
      rw [← get_isSome_eq_find]
      exact h
    have hd : (d.set k v).data
        = d.data.map (fun p => if p.1 == k then (k, v) else p) := by
      rw [set_data, if_pos h]
    rw [get_eq_find, hd]
    by_cases hx : x = k
    · subst hx
      rw [find?_map_update_eq _ _ _ hfind, if_pos rfl]
      rfl
    · rw [find?_map_update_ne _ _ _ _ hx, if_neg hx]
      rfl
  · have hnone : d.data.find? (fun p => p.1 == k) = none := by
      have h2 := get_isSome_eq_find d k
      cases hf : d.data.find? (fun p => p.1 == k) with
      | none => rfl
      | some p =>
        rw [hf] at h2
        exact absurd (h2 ▸ rfl : (d.get k).isSome = true) h
    have hd : (d.set k v).data = d.data ++ [(k, v)] := by
      rw [set_data, if_neg h]
    rw [get_eq_find, hd]
    by_cases hx : x = k
    · subst hx
      rw [find?_append_of_none _ _ _ hnone, if_pos rfl]
      simp [List.find?]
    · have h1 : (k == x) = false := beq_eq_false_iff_ne.mpr (Ne.symm hx)
      rw [find?_append_single_of_neg (fun p => p.1 == x) d.data (k, v) h1,
        if_neg hx, get_eq_find]

/-- The ordered contents of a container: each ordered key with the map
value stored under it. -/
def recordEntries (d : RecordData) : List (String × Option GoValue) :=
  d.keys.map (fun k => (k, d.get k))

theorem recordEntries_set (d : RecordData) (k : String) (v : GoValue)
    (hwf : RecordData.WF d) (hk : (d.get k).isSome = false) :
    recordEntries (d.set k v) = recordEntries d ++ [(k, some v)] := by
  unfold recordEntries
  rw [RecordData.set_keys, if_neg (by simp [hk]), List.map_append]
  congr 1
  · apply List.map_congr_left
    intro x hx
    have hxk : x ≠ k := by
      intro he
      subst he
      have h1 := (hwf.2.2 x).mp hx
      rw [hk] at h1
      cases h1
    rw [get_set, if_neg hxk]
  · simp [get_set]

theorem foldl_set_entries (pairs : List (String × GoValue)) :
    ∀ d : RecordData, RecordData.WF d →
    (∀ p ∈ pairs, (d.get p.1).isSome = false) →
    (pairs.map Prod.fst).Nodup →
    recordEntries (pairs.foldl (fun d p => d.set p.1 p.2) d)
      = recordEntries d ++ pairs.map (fun p => (p.1, some p.2)) := by
  induction pairs with
  | nil =>
    intro d _ _ _
    simp
  | cons p t ih =>
    intro d hwf hfresh hnodup
    have hfresh2 : ∀ q ∈ t, ((d.set p.1 p.2).get q.1).isSome = false := by
      intro q hq
      have hqp : q.1 ≠ p.1 := fun he =>
        (List.nodup_cons.mp hnodup).1 (he ▸ List.mem_map_of_mem Prod.fst hq)
      rw [get_set, if_neg hqp]
      exact hfresh q (List.mem_cons_of_mem p hq)
    rw [List.foldl_cons,
      ih (d.set p.1 p.2) (RecordData.wf_set d p.1 p.2 hwf) hfresh2
        (List.nodup_cons.mp hnodup).2,
      recordEntries_set d p.1 p.2 hwf (hfresh p (List.mem_cons_self p t))]
    simp

/-- funcs.go shouldSkipField: the primary-key field is always skipped; on
insert, additionally skip nullable fields holding the zero value of their
kind and zero document-store object identifiers. -/
def shouldSkipField (insert nullable : Bool) (value : GoValue)
    (fieldName keyName : String) : Bool :=
  if fieldName = keyName then true
  else if insert then (nullable && isZero value) || (isObjectID value && isZero value)
  else false

/-- The skip rule exactly as the claim states it: on insert skip exactly
the nullable-and-zero and zero-object-identifier fields; on update skip
exactly the primary-key field. -/
def specSkipField (insert nullable : Bool) (value : GoValue)
    (fieldName keyName : String) : Bool :=
  if insert then (nullable && isZero value) || (isObjectID value && isZero value)
  else fieldName == keyName

/-- One struct field as seen by the reflection layer (nautilus.FieldData
plus its parsed sql-tag data): source name, current value, embedding and
export flags, and the parsed tag entries. -/
structure SchemeField where
  name : String
  value : GoValue
  anonymous : Bool
  exported : Bool
  tags : List (String × String)
deriving DecidableEq

/-- Lookup of one parsed tag entry (presence of a bare flag is stored as
the entry "true" by funcs.go parseTag). -/
def tagLookup (tags : List (String × String)) (k : String) : Option String :=
  (tags.find? (fun p => p.1 == k)).map (·.2)

/-- funcs.go generateRecordData: the resolved column name — the column
tag override when present, else the snake-case transform of the field
name.  The transform lives in the external nautilus library and is
abstracted as `toSnake`. -/
def resolveFieldName (toSnake : String → String) (fd : SchemeField) : String :=
  match tagLookup fd.tags "column" with
  | some n => n
  | none => toSnake fd.name

/-- funcs.go generateRecordData eligibility test: not ignore-tagged, not
embedded, exported. -/
def fieldEligible (fd : SchemeField) : Bool :=
  (tagLookup fd.tags "ignore").isNone && !fd.anonymous && fd.exported

/-- The body of the generateRecordData loop for one field. -/
def genStep (toSnake : String → String) (keyName : String) (insert : Bool)
    (data : RecordData) (fd : SchemeField) : RecordData :=
  if fieldEligible fd then
    let fieldName := resolveFieldName toSnake fd
    let nullable := (tagLookup fd.tags "null").isSome
    if shouldSkipField insert nullable fd.value fieldName keyName then data
    else data.set fieldName fd.value
  else data

/-- funcs.go generateRecordData: fold the per-field step over the schema
fields starting from the zero container; `keyName` is
scheme.GetKeyName(). -/
def generateRecordData (toSnake : String → String) (keyName : String)
    (fields : List SchemeField) (insert : Bool) : RecordData :=
  fields.foldl (genStep toSnake keyName insert) RecordData.zeroRecordData

/-- Selection of the fields that end up in the container: eligible and not
skipped, paired with their resolved column name and value. -/
def persistSelect (toSnake : String → String) (keyName : String) (insert : Bool)
    (fd : SchemeField) : Option (String × GoValue) :=
  if fieldEligible fd
      && !(shouldSkipField insert ((tagLookup fd.tags "null").isSome) fd.value
            (resolveFieldName toSnake fd) keyName) then
    some (resolveFieldName toSnake fd, fd.value)
  else none

def persistedPairs (toSnake : String → String) (keyName : String)
    (fields : List SchemeField) (insert : Bool) : List (String × GoValue) :=
  fields.filterMap (persistSelect toSnake keyName insert)

theorem generate_eq (toSnake : String → String) (keyName : String) (insert : Bool)
    (fields : List SchemeField) : ∀ init : RecordData,
    fields.foldl (genStep toSnake keyName insert) init
      = (persistedPairs toSnake keyName fields insert).foldl
          (fun d p => d.set p.1 p.2) init := by
  induction fields with
  | nil =>
    intro init
    rfl
  | cons fd t ih =>
    intro init
    unfold persistedPairs
    rw [List.foldl_cons, List.filterMap_cons]
    by_cases he : fieldEligible fd
    · by_cases hs : shouldSkipField insert ((tagLookup fd.tags "null").isSome) fd.value
          (resolveFieldName toSnake fd) keyName
      · have hsel : persistSelect toSnake keyName insert fd = none := by
          simp [persistSelect, he, hs]
        have hstep : genStep toSnake keyName insert init fd = init := by
          simp [genStep, he, hs]
        rw [hsel, hstep]
        exact ih init
      · have hsel : persistSelect toSnake keyName insert fd
            = some (resolveFieldName toSnake fd, fd.value) := by
          simp [persistSelect, he, hs]
        have hstep : genStep toSnake keyName insert init fd
            = init.set (resolveFieldName toSnake fd) fd.value := by
          simp [genStep, he, hs]
        rw [hsel, hstep, List.foldl_cons]
        exact ih _
    · have hsel : persistSelect toSnake keyName insert fd = none := by
        simp [persistSelect, he]
      have hstep : genStep toSnake keyName insert init fd = init := by
        simp [genStep, he]
      rw [hsel, hstep]
      exact ih init

/-- C3 counterexample: on insert, a primary-key field holding a nonzero
value with no nullable tag is skipped by the code, while the claim's
"exactly when" rule says it is written; the claim's skip condition and the
code's disagree at this input. -/
theorem claim_C3_counterexample :
    shouldSkipField true false (GoValue.intV 5) "id" "id" = true
    ∧ specSkipField true false (GoValue.intV 5) "id" "id" = false :=
  ⟨rfl, rfl⟩

/-- C3 (amended): the serialize step skips a field exactly when it is the
primary-key field (on insert as well as on update), or — on insert only —
when it is nullable-tagged with the zero value of its kind or a zero
document-store object identifier; every other eligible field is written to
the container with its current value, in field order (stated for field
lists whose resolved persisted column names are distinct, as Go schema
types have). -/
theorem claim_C3_amended_serialize (toSnake : String → String) (keyName : String) :
    (∀ (insert nullable : Bool) (v : GoValue) (f : String),
      shouldSkipField insert nullable v f keyName
        = ((f == keyName)
            || (insert && ((nullable && isZero v) || (isObjectID v && isZero v)))))
    ∧ (∀ (fields : List SchemeField) (insert : Bool),
        ((persistedPairs toSnake keyName fields insert).map Prod.fst).Nodup →
        recordEntries (generateRecordData toSnake keyName fields insert)
          = (persistedPairs toSnake keyName fields insert).map
              (fun p => (p.1, some p.2))) := by
  constructor
  · intro insert nullable v f
    unfold shouldSkipField
    by_cases hf : f = keyName <;> by_cases hi : insert = true <;> simp [hf, hi]
  · intro fields insert hnodup
    unfold generateRecordData
    rw [generate_eq toSnake keyName insert fields RecordData.zeroRecordData,
      foldl_set_entries _ RecordData.zeroRecordData RecordData.wf_zero
        (fun p _ => rfl) hnodup]
    simp [recordEntries, RecordData.zeroRecordData]

/-- Concrete inputs of the C3 witness: a primary-key field (skipped on
insert by the amended rule) and an ordinary string field (written). -/
def c3WitnessFields : List SchemeField :=
  [ { name := "ID", value := .intV 7, anonymous := false, exported := true,
      tags := [("column", "id")] },
    { name := "Name", value := .strV "x", anonymous := false, exported := true,
      tags := [] } ]

theorem claim_C3_amended_serialize_witness :
    shouldSkipField true false (GoValue.intV 5) "f" "k"
      = ((("f" : String) == "k")
          || (true && ((false && isZero (GoValue.intV 5))
              || (isObjectID (GoValue.intV 5) && isZero (GoValue.intV 5)))))
    ∧ ((persistedPairs (fun s => s) "id" c3WitnessFields true).map Prod.fst).Nodup
    ∧ recordEntries (generateRecordData (fun s => s) "id" c3WitnessFields true)
        = (persistedPairs (fun s => s) "id" c3WitnessFields true).map
            (fun p => (p.1, some p.2)) :=
  ⟨(claim_C3_amended_serialize (fun s => s) "k").1 true false (GoValue.intV 5) "f",
    by decide,
    (claim_C3_amended_serialize (fun s => s) "id").2 c3WitnessFields true (by decide)⟩

/-! Array round trip: encoding (clients/postgres.go enquoteSliceValue) and
decoding (funcs.go setFieldValue slice arm and makeSliceValue). -/

def squoteStr : String := String.mk [Char.ofNat 39]

def lbrace : Char := Char.ofNat 123

def rbrace : Char := Char.ofNat 125

def lbraceStr : String := String.mk [lbrace]

def rbraceStr : String := String.mk [rbrace]

def backslashChar : Char := Char.ofNat 92

/-- postgres.go enquoteSliceValue, numeric arm: each element formatted in
decimal (Go routes elements through a JSON marshal/unmarshal pair that is
the identity on the small integers concerned), joined with commas inside a
single-quoted brace literal. -/
def enquoteSliceValueInts (xs : List Int) : String :=
  squoteStr ++ lbraceStr
    ++ strJoin "," (xs.foldl (fun acc x => acc ++ [toString x]) [])
    ++ rbraceStr ++ squoteStr

/-- Model of encoding/json Marshal for a string-keyed string-valued
object, in stored entry order (single-entry maps are unaffected by Go's
key sorting): pairs rendered "key":"value" inside braces, no spaces, no
escaping needed for the plain strings concerned. -/
def jsonMarshalStringMap (m : List (String × String)) : String :=
  lbraceStr
    ++ strJoin "," (m.map (fun p => "\"" ++ p.1 ++ "\":\"" ++ p.2 ++ "\""))
    ++ rbraceStr

/-- postgres.go enquoteSliceValue, map/struct arm: each element JSON
marshalled and single-quoted, joined with commas inside
array[...]::json[]. -/
def enquoteSliceValueMaps (ms : List (List (String × String))) : String :=
  "array["
    ++ strJoin ","
      (ms.foldl (fun acc m => acc ++ [squoteStr ++ jsonMarshalStringMap m ++ squoteStr]) [])
    ++ "]::json[]"

/-- Go strings.Split on a one-character separator: split at every
occurrence, keeping empty pieces. -/
def splitOnChar (sep : Char) : List Char → List (List Char)
  | [] => [[]]
  | c :: rest =>
    match splitOnChar sep rest with
    | [] => [[c]]
    | h :: t => if c = sep then [] :: h :: t else (c :: h) :: t

/-- Whether the text contains the three-character sequence
quote-comma-quote (Go strings.Contains with that pattern). -/
def containsQCQ : List Char → Bool
  | '"' :: ',' :: '"' :: _ => true
  | _ :: rest => containsQCQ rest
  | [] => false

/-- Replace every quote-comma-quote by quote-pipe-quote, left to right
(Go strings.Replace with count -1). -/
def replaceQCQ : List Char → List Char
  | '"' :: ',' :: '"' :: rest => '"' :: '|' :: '"' :: replaceQCQ rest
  | c :: rest => c :: replaceQCQ rest
  | [] => []

/-- Go b[1 : len(b)-1]: drop the first and last byte. -/
def stripOuter (l : List Char) : List Char := (l.drop 1).dropLast

/-- funcs.go setFieldValue, slice arm: after stripping the outer braces,
split into elements — when the text contains quote-comma-quote the
elements are quoted JSON objects, so that sequence is first replaced by
quote-pipe-quote and the split is on the pipe; otherwise split on the
comma. -/
def splitWireElements (s : List Char) : List (List Char) :=
  if containsQCQ s then splitOnChar '|' (replaceQCQ s) else splitOnChar ',' s

def digitVal (c : Char) : Option Nat :=
  if '0' ≤ c ∧ c ≤ '9' then some (c.toNat - '0'.toNat) else none

def digitsToNatAux : Nat → List Char → Option Nat
  | acc, [] => some acc
  | acc, c :: rest =>
    match digitVal c with
    | some d => digitsToNatAux (10 * acc + d) rest
    | none => none

/-- Model of strconv.Atoi: optional sign, then at least one decimal
digit. -/
def parseIntChars : List Char → Option Int
  | [] => none
  | '-' :: rest =>
    if rest = [] then none else (digitsToNatAux 0 rest).map (fun n => -(n : Int))
  | '+' :: rest =>
    if rest = [] then none else (digitsToNatAux 0 rest).map (fun n => (n : Int))
  | l => (digitsToNatAux 0 l).map (fun n => (n : Int))

/-- funcs.go makeSliceValue, int arm: strconv.Atoi; a parse error panics,
modelled as `none`. -/
def makeSliceValueInt (s : List Char) : Option Int := parseIntChars s

def scanToQuote : List Char → Option (List Char × List Char)
  | [] => none
  | c :: rest =>
    if c = '"' then some ([], rest)
    else
      match scanToQuote rest with
      | some (content, rem) => some (c :: content, rem)
      | none => none

def takeStringLit : List Char → Option (List Char × List Char)
  | '"' :: rest => scanToQuote rest
  | _ => none

/-- Pair list of a JSON object body (after the opening brace), consuming
"key":"value" pairs separated by commas up to the closing brace; fuel
makes the recursion structural. -/
def parsePairsAux : Nat → List Char → Option (List (String × String))
  | 0, _ => none
  | fuel + 1, l =>
    match takeStringLit l with
    | none => none
    | some (k, rest1) =>
      match rest1 with
      | ':' :: rest2 =>
        match takeStringLit rest2 with
        | none => none
        | some (v, rest3) =>
          match rest3 with
          | c :: rest4 =>
            if c = rbrace then
              if rest4 = [] then some [(String.mk k, String.mk v)] else none
            else if c = ',' then
              (parsePairsAux fuel rest4).map (fun ps => (String.mk k, String.mk v) :: ps)
            else none
          | [] => none
      | _ => none

/-- Model of encoding/json Unmarshal into a string-keyed string-valued
map, restricted to the spaceless objects this code path produces. -/
def parseJsonStringMap (l : List Char) : Option (List (String × String)) :=
  match l with
  | c :: rest =>
    if c = lbrace then
      if rest = [rbrace] then some [] else parsePairsAux (rest.length + 1) rest
    else none
  | [] => none

/-- funcs.go makeSliceValue, map arm: remove every backslash, drop the
first and last byte (the quotes around the element), then JSON-unmarshal
the object. -/
def makeSliceValueMap (s : List Char) : Option (List (String × String)) :=
  let s1 := s.filter (fun c => c != backslashChar)
  parseJsonStringMap (stripOuter s1)

/-- funcs.go setFieldValue, slice arm, int-slice destination: strip the
outer braces, split, and parse every element as an int. -/
def setIntSliceFromWire (s : String) : Option (List Int) :=
  (splitWireElements (stripOuter s.data)).mapM makeSliceValueInt

/-- funcs.go setFieldValue, slice arm, map-slice destination: strip the
outer braces, split, and decode every element as a JSON object. -/
def setMapSliceFromWire (s : String) : Option (List (List (String × String))) :=
  (splitWireElements (stripOuter s.data)).mapM makeSliceValueMap

/-- The dialect wire text a json[] column yields for the two single-key
maps: an array literal of quoted JSON objects with escaped inner
quotes. -/
def pgMapSliceWire : String :=
  "\x7b\"\x7b\\\"a\\\":\\\"b\\\"\x7d\",\"\x7b\\\"c\\\":\\\"d\\\"\x7d\"\x7d"

/-- C5: the slice [2,3,5,7] encodes to the single-quoted array literal
(2,3,5,7 in braces) and the driver's brace literal decodes back to
[2,3,5,7]; a slice of the two single-key maps (a:b) and (c:d) encodes to
array['(a:b json)','(c:d json)']::json[] and the corresponding driver wire
text decodes back to the original two maps. -/
theorem claim_C5_array_roundtrip :
    enquoteSliceValueInts [2, 3, 5, 7] = squoteStr ++ "\x7b2,3,5,7\x7d" ++ squoteStr
    ∧ setIntSliceFromWire "\x7b2,3,5,7\x7d" = some [2, 3, 5, 7]
    ∧ enquoteSliceValueMaps [[("a", "b")], [("c", "d")]]
        = "array[" ++ squoteStr ++ "\x7b\"a\":\"b\"\x7d" ++ squoteStr ++ ","
            ++ squoteStr ++ "\x7b\"c\":\"d\"\x7d" ++ squoteStr ++ "]::json[]"
    ∧ setMapSliceFromWire pgMapSliceWire = some [[("a", "b")], [("c", "d")]] := by
  refine ⟨by decide, by decide, by decide, by decide⟩

end Octopus
